import Mathlib

/-!
Shallow embedding of `setupTLSFromWindowsCertStore` from
`cmd/containerd/server/server_windows.go` (the Windows TLS-from-cert-store
pipeline) and its non-Windows no-op counterpart.

Platform calls (Windows CryptoAPI, x509 parsing, certtostore) are modelled
as an environment of oracle functions; DER byte strings are `List Nat`;
opaque handles are `Nat`.  The pipeline additionally emits a trace of
handle acquire/release events mirroring the Go `defer` statements, so that
resource-lifecycle claims can be stated.
-/

namespace ContainerdTLS

/-- Raw DER-encoded bytes of a certificate (Go `[]byte`). -/
abbrev DERBytes := List Nat

/-- A Windows `CertContext`: the store-resident encoded certificate bytes
(`EncodedCert` together with `Length`, modelled as one byte list). -/
structure CertContextData where
  encodedCert : DERBytes
deriving DecidableEq, Repr

/-- A Windows `CertChainContext`: `Chains` is a list of simple chains, each
an ordered list of chain elements; each element carries a `CertContext`. -/
abbrev CertChainContext := List (List CertContextData)

/-- A parsed `x509.Certificate`, keeping the fields the pipeline reads:
`Raw` (the complete DER) and `Issuer.CommonName`. -/
structure Cert where
  raw : DERBytes
  issuerCommonName : String
deriving DecidableEq, Repr

/-- An opaque private-key capability (Go `crypto.PrivateKey` from
`certtostore`). -/
abbrev Key := Nat

/-- An `x509.CertPool`, as the list of certificates added to it.
Go's `CertPool.AddCert` deduplicates by the certificate's raw bytes. -/
abbrev CertPool := List Cert

/-- `x509.CertPool.AddCert`: appends the certificate unless one with the
same raw bytes is already in the pool. -/
def addCert (pool : CertPool) (c : Cert) : CertPool :=
  if pool.any (fun d => d.raw = c.raw) then pool else pool ++ [c]

/-- Go `tls.ClientAuthType`, restricted to the two values the pipeline can
produce (the zero value `NoClientCert` and `RequireAndVerifyClientCert`). -/
inductive ClientAuthType where
  | noClientCert
  | requireAndVerifyClientCert
deriving DecidableEq, Repr

/-- Go `tls.Certificate` as assembled by the pipeline. -/
structure TLSCertificate where
  privateKey : Key
  leaf : Cert
  certificate : List DERBytes
deriving DecidableEq, Repr

/-- Go `tls.Config` as assembled by the pipeline. -/
structure TLSConfig where
  certificates : List TLSCertificate
  clientCAs : CertPool
  clientAuth : ClientAuthType
deriving DecidableEq, Repr

/-- A `grpc.ServerOption`; the pipeline only ever produces
`grpc.Creds(credentials.NewTLS(cfg))`. -/
inductive ServerOption where
  | creds (cfg : TLSConfig)
deriving DecidableEq, Repr

/-- The distinct error-return sites of the pipeline, one constructor per
`return nil, fmt.Errorf(...)` in the source. -/
inductive PipelineError where
  | encodingError
  | storeOpenError
  | certificateNotFoundError
  | certificateParseError
  | chainBuildError
  | chainElementParseError
  | keyStoreOpenError
  | keyRetrievalError
deriving DecidableEq, Repr

/-- The opaque handles the pipeline acquires and releases via `defer`:
the certificate store handle, the found certificate context, the chain
context, and the `certtostore` key-management store. -/
inductive Handle where
  | winStore
  | certContext
  | certChain
  | keyStore
deriving DecidableEq, Repr

/-- A resource event: acquisition of a handle or its release. -/
inductive Event where
  | acquire (h : Handle)
  | release (h : Handle)
deriving DecidableEq, Repr

/-- The platform environment: one oracle per external call the pipeline
makes.  `certFindCertificateInStore` returns `.error ()` when the Windows
call errors (in which case no context is returned, per the API contract)
and `.ok none` when it returns a nil context without error; every other
oracle uses `none` for the error return. -/
structure Env where
  utf16PtrFromString : String → Option (List Nat)
  certOpenStore : List Nat → Option Nat
  certFindCertificateInStore : Nat → List Nat → Except Unit (Option CertContextData)
  parseCertificate : DERBytes → Option Cert
  certGetCertificateChain : CertContextData → Option CertChainContext
  openWinCertStore : String → Option Nat
  certKey : Nat → CertContextData → Option Key

/-- The configuration field the pipeline reads: `config.GRPC.TCPTLSCName`. -/
structure Config where
  tcpTLSCName : String

/-- Result of one pipeline run: the returned option list (Go's nil slice is
`[]`), the returned error, and the trace of handle events. -/
structure RunOut where
  opts : List ServerOption
  err : Option PipelineError
  trace : List Event
deriving DecidableEq, Repr

/-- The inner element loop body of the chain-conversion loop: walks the
elements of one simple chain, skipping the first element exactly when
`skipFirst` is set (the `i == 0 && j == 0` case); for every other element
copies its bytes, appends them to `certChainBytes`, parses them and adds
the parsed certificate to `certPool`, failing on the first parse error. -/
def processElements (parse : DERBytes → Option Cert) :
    List CertContextData → Bool → List DERBytes → CertPool →
    Except Unit (List DERBytes × CertPool)
  | [], _, certChainBytes, certPool => .ok (certChainBytes, certPool)
  | _ :: rest, true, certChainBytes, certPool =>
      processElements parse rest false certChainBytes certPool
  | e :: rest, false, certChainBytes, certPool =>
      let certBytes := e.encodedCert
      match parse certBytes with
      | none => .error ()
      | some cert =>
          processElements parse rest false (certChainBytes ++ [certBytes])
            (addCert certPool cert)

/-- The outer chain loop: iterates over the chains of the chain context;
`firstChain` is set only for chain index 0, so that exactly the element at
chain 0, element 0 is skipped. -/
def processChains (parse : DERBytes → Option Cert) :
    List (List CertContextData) → Bool → List DERBytes → CertPool →
    Except Unit (List DERBytes × CertPool)
  | [], _, certChainBytes, certPool => .ok (certChainBytes, certPool)
  | c :: rest, firstChain, certChainBytes, certPool =>
      match processElements parse c firstChain certChainBytes certPool with
      | .error () => .error ()
      | .ok (certChainBytes, certPool) =>
          processChains parse rest false certChainBytes certPool

/-- The literal store name passed to `syscall.UTF16PtrFromString`. -/
def myStoreName : String := "My"

/-- `setupTLSFromWindowsCertStore` (Windows build): the five-stage pipeline.
Each `match` mirrors one `if err != nil` check of the source; the trace in
each branch lists the acquisitions made so far followed by the deferred
releases that run at that return, in reverse acquisition order. -/
def setupTLSFromWindowsCertStore (env : Env) (config : Config) : RunOut :=
  match env.utf16PtrFromString myStoreName with
  | none => ⟨[], some .encodingError, []⟩
  | some storeName =>
  match env.certOpenStore storeName with
  | none => ⟨[], some .storeOpenError, []⟩
  | some winStore =>
  match env.utf16PtrFromString config.tcpTLSCName with
  | none => ⟨[], some .encodingError,
      [.acquire .winStore, .release .winStore]⟩
  | some commonName =>
  match env.certFindCertificateInStore winStore commonName with
  | .error _ => ⟨[], some .certificateNotFoundError,
      [.acquire .winStore, .release .winStore]⟩
  | .ok none => ⟨[], some .certificateNotFoundError,
      [.acquire .winStore, .release .winStore]⟩
  | .ok (some certContext) =>
  match env.parseCertificate certContext.encodedCert with
  | none => ⟨[], some .certificateParseError,
      [.acquire .winStore, .acquire .certContext,
       .release .certContext, .release .winStore]⟩
  | some leafCert =>
  match env.certGetCertificateChain certContext with
  | none => ⟨[], some .chainBuildError,
      [.acquire .winStore, .acquire .certContext,
       .release .certContext, .release .winStore]⟩
  | some certChain =>
  match processChains env.parseCertificate certChain true [] [] with
  | .error _ => ⟨[], some .chainElementParseError,
      [.acquire .winStore, .acquire .certContext, .acquire .certChain,
       .release .certChain, .release .certContext, .release .winStore]⟩
  | .ok (certChainBytes, certPool) =>
  match env.openWinCertStore leafCert.issuerCommonName with
  | none => ⟨[], some .keyStoreOpenError,
      [.acquire .winStore, .acquire .certContext, .acquire .certChain,
       .release .certChain, .release .certContext, .release .winStore]⟩
  | some store =>
  match env.certKey store certContext with
  | none => ⟨[], some .keyRetrievalError,
      [.acquire .winStore, .acquire .certContext, .acquire .certChain,
       .acquire .keyStore,
       .release .keyStore, .release .certChain, .release .certContext,
       .release .winStore]⟩
  | some key =>
  let tlsCert : TLSCertificate :=
    ⟨key, leafCert, leafCert.raw :: certChainBytes⟩
  let tlsConfig : TLSConfig :=
    ⟨[tlsCert], certPool,
     if certChainBytes.length > 0 then .requireAndVerifyClientCert
     else .noClientCert⟩
  ⟨[.creds tlsConfig], none,
   [.acquire .winStore, .acquire .certContext, .acquire .certChain,
    .acquire .keyStore,
    .release .keyStore, .release .certChain, .release .certContext,
    .release .winStore]⟩

/-- `setupTLSFromWindowsCertStore` (non-Windows build): `return nil, nil`. -/
def setupTLSFromWindowsCertStoreNoop (_config : Config) :
    List ServerOption × Option PipelineError :=
  ([], none)

/-- Spec-side description of the Chain Byte Pool: the raw bytes of every
chain element except chain 0, element 0, in encounter order. -/
def specNonLeafBytes (chains : CertChainContext) : List DERBytes :=
  (match chains with
   | [] => []
   | c :: rest => c.drop 1 ++ rest.flatten).map CertContextData.encodedCert

/-- Sequentially decode a list of DER byte strings, failing if any single
decode fails (spec-side description of the loop's parsing behaviour). -/
def parseAll (parse : DERBytes → Option Cert) : List DERBytes → Option (List Cert)
  | [] => some []
  | b :: rest =>
    match parse b with
    | none => none
    | some c =>
      match parseAll parse rest with
      | none => none
      | some cs => some (c :: cs)

/-- The event trace of every pipeline run that acquires all four handles:
acquisitions in order, then the deferred releases in reverse order. -/
def fullTrace : List Event :=
  [.acquire .winStore, .acquire .certContext, .acquire .certChain,
   .acquire .keyStore,
   .release .keyStore, .release .certChain, .release .certContext,
   .release .winStore]

/-- Concrete DER bytes standing for a leaf certificate. -/
def leafDER : DERBytes := [1, 2, 3]

/-- Concrete DER bytes standing for an intermediate certificate. -/
def interDER : DERBytes := [9, 9]

/-- A concrete issuer common name. -/
def caName : String := "ca"

/-- A concrete configured common name. -/
def svcName : String := "svc.example"

/-- A chain context in which the leaf's bytes occur twice: once at the
skipped position (chain 0, element 0) and once at chain 0, element 1. -/
def cexChains : CertChainContext := [[⟨leafDER⟩, ⟨leafDER⟩]]

/-- A concrete environment: the store lookup finds the leaf certificate and
chain building returns `cexChains`; the certificate decoder keeps the raw
bytes it is given. -/
def cexEnv : Env :=
  { utf16PtrFromString := fun _ => some [0]
    certOpenStore := fun _ => some 1
    certFindCertificateInStore := fun _ _ => Except.ok (some ⟨leafDER⟩)
    parseCertificate := fun b => some ⟨b, caName⟩
    certGetCertificateChain := fun _ => some cexChains
    openWinCertStore := fun _ => some 2
    certKey := fun _ _ => some 7 }

/-- The concrete configuration used by the concrete runs. -/
def cexCfg : Config := ⟨svcName⟩

/-- The TLS configuration produced by running the pipeline in `cexEnv`. -/
def cexTLSConfig : TLSConfig :=
  ⟨[⟨7, ⟨leafDER, caName⟩, [leafDER, leafDER]⟩], [⟨leafDER, caName⟩],
   .requireAndVerifyClientCert⟩

/-- A well-formed chain context: leaf at the skipped position, one
distinct intermediate after it. -/
def wChains : CertChainContext := [[⟨leafDER⟩, ⟨interDER⟩]]

/-- `cexEnv` with the well-formed chain context `wChains`. -/
def wEnv : Env := { cexEnv with certGetCertificateChain := fun _ => some wChains }

/-- The TLS configuration produced by running the pipeline in `wEnv`. -/
def wTLSConfig : TLSConfig :=
  ⟨[⟨7, ⟨leafDER, caName⟩, [leafDER, interDER]⟩], [⟨interDER, caName⟩],
   .requireAndVerifyClientCert⟩

/-- `cexEnv` where the store lookup returns a nil certificate reference
without an accompanying error. -/
def nfEnv : Env :=
  { cexEnv with certFindCertificateInStore := fun _ _ => Except.ok none }

/-- `cexEnv` with the chain context `wChains` and a decoder that fails on
every byte string other than the leaf's. -/
def failEnv : Env :=
  { cexEnv with
    certGetCertificateChain := fun _ => some wChains
    parseCertificate := fun b => if b = leafDER then some ⟨b, caName⟩ else none }

theorem parseAll_append (parse : DERBytes → Option Cert) (l1 l2 : List DERBytes) :
    parseAll parse (l1 ++ l2) =
      match parseAll parse l1, parseAll parse l2 with
      | some c1, some c2 => some (c1 ++ c2)
      | _, _ => none := by
  induction l1 with
  | nil => cases h2 : parseAll parse l2 <;> simp [parseAll, h2]
  | cons b l1 ih =>
    cases hb : parse b with
    | none => cases parseAll parse l2 <;> simp [parseAll, hb]
    | some c =>
      cases h1 : parseAll parse l1 with
      | none => cases parseAll parse l2 <;> simp [parseAll, hb, h1, ih]
      | some c1 =>
        cases h2 : parseAll parse l2 <;> simp [parseAll, hb, h1, h2, ih]

theorem parseAll_length (parse : DERBytes → Option Cert) :
    ∀ l cs, parseAll parse l = some cs → cs.length = l.length := by
  intro l
  induction l with
  | nil => intro cs h; simp [parseAll] at h; simp [h.symm]
  | cons b rest ih =>
    intro cs h
    cases hb : parse b with
    | none => simp [parseAll, hb] at h
    | some c =>
      cases hr : parseAll parse rest with
      | none => simp [parseAll, hb, hr] at h
      | some cs1 =>
        simp [parseAll, hb, hr] at h
        simp [h.symm, ih cs1 hr]

theorem parseAll_forall (parse : DERBytes → Option Cert) :
    ∀ l cs, parseAll parse l = some cs → ∀ b ∈ l, ∃ c, parse b = some c := by
  intro l
  induction l with
  | nil => intro cs _ b hb; simp at hb
  | cons x rest ih =>
    intro cs h b hb
    cases hx : parse x with
    | none => simp [parseAll, hx] at h
    | some c =>
      cases hr : parseAll parse rest with
      | none => simp [parseAll, hx, hr] at h
      | some cs1 =>
        rcases List.mem_cons.mp hb with hb | hb
        · exact ⟨c, hb ▸ hx⟩
        · exact ih cs1 hr b hb

theorem parseAll_mem (parse : DERBytes → Option Cert) :
    ∀ l cs, parseAll parse l = some cs →
      ∀ c ∈ cs, ∃ b ∈ l, parse b = some c := by
  intro l
  induction l with
  | nil =>
    intro cs h c hc
    rw [parseAll] at h
    obtain rfl : cs = [] := (Option.some.inj h).symm
    simp at hc
  | cons x rest ih =>
    intro cs h c hc
    cases hx : parse x with
    | none => simp [parseAll, hx] at h
    | some c0 =>
      cases hr : parseAll parse rest with
      | none => simp [parseAll, hx, hr] at h
      | some cs1 =>
        simp [parseAll, hx, hr] at h
        rw [h.symm] at hc
        rcases List.mem_cons.mp hc with hc | hc
        · exact ⟨x, List.mem_cons_self x rest, hc ▸ hx⟩
        · rcases ih cs1 hr c hc with ⟨b, hb, hbc⟩
          exact ⟨b, List.mem_cons_of_mem x hb, hbc⟩

theorem processElements_false_eq (parse : DERBytes → Option Cert)
    (elems : List CertContextData) :
    ∀ acc pool, processElements parse elems false acc pool =
      match parseAll parse (elems.map CertContextData.encodedCert) with
      | none => .error ()
      | some certs =>
          .ok (acc ++ elems.map CertContextData.encodedCert,
               certs.foldl addCert pool) := by
  induction elems with
  | nil => intro acc pool; simp [processElements, parseAll]
  | cons e rest ih =>
    intro acc pool
    cases he : parse e.encodedCert with
    | none => simp [processElements, parseAll, he]
    | some c =>
      cases hr : parseAll parse (rest.map CertContextData.encodedCert) with
      | none => simp [processElements, parseAll, he, hr, ih]
      | some cs => simp [processElements, parseAll, he, hr, ih, List.foldl]

theorem processChains_false_eq (parse : DERBytes → Option Cert)
    (chains : List (List CertContextData)) :
    ∀ acc pool, processChains parse chains false acc pool =
      match parseAll parse (chains.flatten.map CertContextData.encodedCert) with
      | none => .error ()
      | some certs =>
          .ok (acc ++ chains.flatten.map CertContextData.encodedCert,
               certs.foldl addCert pool) := by
  induction chains with
  | nil => intro acc pool; simp [processChains, parseAll]
  | cons c rest ih =>
    intro acc pool
    cases hc : parseAll parse (List.map CertContextData.encodedCert c) with
    | none =>
      cases hr : parseAll parse (List.map CertContextData.encodedCert rest.flatten) with
      | none =>
        simp only [processChains, processElements_false_eq, List.flatten_cons,
          List.map_append, parseAll_append, hc, hr]
      | some cs1 =>
        simp only [processChains, processElements_false_eq, List.flatten_cons,
          List.map_append, parseAll_append, hc, hr]
    | some cs =>
      cases hr : parseAll parse (List.map CertContextData.encodedCert rest.flatten) with
      | none =>
        simp only [processChains, processElements_false_eq, List.flatten_cons,
          List.map_append, parseAll_append, hc, hr, ih]
      | some cs1 =>
        simp only [processChains, processElements_false_eq, List.flatten_cons,
          List.map_append, parseAll_append, hc, hr, ih, List.append_assoc,
          List.foldl_append]

theorem processChains_eq_spec (parse : DERBytes → Option Cert)
    (chains : CertChainContext) :
    processChains parse chains true [] [] =
      match parseAll parse (specNonLeafBytes chains) with
      | none => .error ()
      | some certs => .ok (specNonLeafBytes chains, certs.foldl addCert []) := by
  cases chains with
  | nil =>
    simp only [processChains, specNonLeafBytes, List.map_nil, parseAll,
      List.foldl_nil]
  | cons c rest =>
    cases c with
    | nil =>
      cases hr : parseAll parse (List.map CertContextData.encodedCert rest.flatten) with
      | none =>
        simp only [processChains, processElements, processChains_false_eq,
          specNonLeafBytes, List.drop_nil, List.nil_append, hr]
      | some cs1 =>
        simp only [processChains, processElements, processChains_false_eq,
          specNonLeafBytes, List.drop_nil, List.nil_append, hr]
    | cons e es =>
      cases hc : parseAll parse (List.map CertContextData.encodedCert es) with
      | none =>
        cases hr : parseAll parse (List.map CertContextData.encodedCert rest.flatten) with
        | none =>
          simp only [processChains, processElements, processElements_false_eq,
            processChains_false_eq, specNonLeafBytes, List.drop_succ_cons,
            List.drop_zero, List.map_append, parseAll_append, hc, hr,
            List.nil_append]
        | some cs1 =>
          simp only [processChains, processElements, processElements_false_eq,
            processChains_false_eq, specNonLeafBytes, List.drop_succ_cons,
            List.drop_zero, List.map_append, parseAll_append, hc, hr,
            List.nil_append]
      | some cs =>
        cases hr : parseAll parse (List.map CertContextData.encodedCert rest.flatten) with
        | none =>
          simp only [processChains, processElements, processElements_false_eq,
            processChains_false_eq, specNonLeafBytes, List.drop_succ_cons,
            List.drop_zero, List.map_append, parseAll_append, hc, hr,
            List.nil_append]
        | some cs1 =>
          simp only [processChains, processElements, processElements_false_eq,
            processChains_false_eq, specNonLeafBytes, List.drop_succ_cons,
            List.drop_zero, List.map_append, parseAll_append, hc, hr,
            List.nil_append, List.append_assoc, List.foldl_append]

theorem addCert_length_pos (pool : CertPool) (c : Cert) :
    0 < (addCert pool c).length := by
  unfold addCert
  split
  · next h =>
      rcases List.any_eq_true.mp h with ⟨x, hx, _⟩
      exact List.length_pos.mpr (List.ne_nil_of_mem hx)
  · simp

theorem length_le_foldl_addCert (certs : List Cert) :
    ∀ pool : CertPool, pool.length ≤ (certs.foldl addCert pool).length := by
  induction certs with
  | nil => intro pool; simp
  | cons c cs ih =>
    intro pool
    have h1 : pool.length ≤ (addCert pool c).length := by
      unfold addCert
      split
      · exact le_refl _
      · simp
    exact le_trans h1 (ih (addCert pool c))

theorem foldl_addCert_ne_nil (certs : List Cert) (pool : CertPool)
    (h : certs ≠ []) : certs.foldl addCert pool ≠ [] := by
  cases certs with
  | nil => exact absurd rfl h
  | cons c cs =>
    have h1 : 0 < (addCert pool c).length := addCert_length_pos pool c
    have h2 : (addCert pool c).length ≤ ((c :: cs).foldl addCert pool).length := by
      simpa using length_le_foldl_addCert cs (addCert pool c)
    exact List.ne_nil_of_length_pos (lt_of_lt_of_le h1 h2)

theorem mem_addCert (pool : CertPool) (x c : Cert) (h : c ∈ addCert pool x) :
    c ∈ pool ∨ c = x := by
  unfold addCert at h
  split at h
  · exact Or.inl h
  · rcases List.mem_append.mp h with h | h
    · exact Or.inl h
    · exact Or.inr (List.mem_singleton.mp h)

theorem mem_foldl_addCert (certs : List Cert) :
    ∀ (pool : CertPool) (c : Cert), c ∈ certs.foldl addCert pool →
      c ∈ pool ∨ c ∈ certs := by
  induction certs with
  | nil => intro pool c h; simp at h; exact Or.inl h
  | cons x cs ih =>
    intro pool c h
    simp only [List.foldl_cons] at h
    rcases ih (addCert pool x) c h with h1 | h1
    · rcases mem_addCert pool x c h1 with h2 | h2
      · exact Or.inl h2
      · exact Or.inr (h2 ▸ List.mem_cons_self x cs)
    · exact Or.inr (List.mem_cons_of_mem x h1)

theorem run_shape (env : Env) (cfg : Config) :
    (∃ tc tr, setupTLSFromWindowsCertStore env cfg = ⟨[.creds tc], none, tr⟩) ∨
    (∃ e tr, setupTLSFromWindowsCertStore env cfg = ⟨[], some e, tr⟩) := by
  unfold setupTLSFromWindowsCertStore
  repeat' split
  all_goals first
    | exact Or.inr ⟨_, _, rfl⟩
    | exact Or.inl ⟨_, _, rfl⟩

theorem run_success (env : Env) (cfg : Config)
    (h : (setupTLSFromWindowsCertStore env cfg).err = none) :
    ∃ storeName winStore commonName certContext leafCert certChain
      certChainBytes certPool store key,
      env.utf16PtrFromString myStoreName = some storeName ∧
      env.certOpenStore storeName = some winStore ∧
      env.utf16PtrFromString cfg.tcpTLSCName = some commonName ∧
      env.certFindCertificateInStore winStore commonName =
        Except.ok (some certContext) ∧
      env.parseCertificate certContext.encodedCert = some leafCert ∧
      env.certGetCertificateChain certContext = some certChain ∧
      processChains env.parseCertificate certChain true [] [] =
        Except.ok (certChainBytes, certPool) ∧
      env.openWinCertStore leafCert.issuerCommonName = some store ∧
      env.certKey store certContext = some key ∧
      setupTLSFromWindowsCertStore env cfg =
        ⟨[ServerOption.creds
            ⟨[⟨key, leafCert, leafCert.raw :: certChainBytes⟩], certPool,
             if certChainBytes.length > 0 then .requireAndVerifyClientCert
             else .noClientCert⟩], none, fullTrace⟩ := by
  cases hsn : env.utf16PtrFromString myStoreName with
  | none => simp [setupTLSFromWindowsCertStore, hsn] at h
  | some storeName =>
  cases hws : env.certOpenStore storeName with
  | none => simp [setupTLSFromWindowsCertStore, hsn, hws] at h
  | some winStore =>
  cases hcn : env.utf16PtrFromString cfg.tcpTLSCName with
  | none => simp [setupTLSFromWindowsCertStore, hsn, hws, hcn] at h
  | some commonName =>
  cases hfind : env.certFindCertificateInStore winStore commonName with
  | error e => simp [setupTLSFromWindowsCertStore, hsn, hws, hcn, hfind] at h
  | ok oc =>
  cases oc with
  | none => simp [setupTLSFromWindowsCertStore, hsn, hws, hcn, hfind] at h
  | some certContext =>
  cases hleaf : env.parseCertificate certContext.encodedCert with
  | none =>
    simp [setupTLSFromWindowsCertStore, hsn, hws, hcn, hfind, hleaf] at h
  | some leafCert =>
  cases hctx : env.certGetCertificateChain certContext with
  | none =>
    simp [setupTLSFromWindowsCertStore, hsn, hws, hcn, hfind, hleaf, hctx] at h
  | some certChain =>
  cases hpc : processChains env.parseCertificate certChain true [] [] with
  | error e =>
    simp [setupTLSFromWindowsCertStore, hsn, hws, hcn, hfind, hleaf, hctx,
      hpc] at h
  | ok bp =>
  obtain ⟨certChainBytes, certPool⟩ := bp
  cases hks : env.openWinCertStore leafCert.issuerCommonName with
  | none =>
    simp [setupTLSFromWindowsCertStore, hsn, hws, hcn, hfind, hleaf, hctx,
      hpc, hks] at h
  | some store =>
  cases hkey : env.certKey store certContext with
  | none =>
    simp [setupTLSFromWindowsCertStore, hsn, hws, hcn, hfind, hleaf, hctx,
      hpc, hks, hkey] at h
  | some key =>
  exact ⟨storeName, winStore, commonName, certContext, leafCert, certChain,
    certChainBytes, certPool, store, key, rfl, hws, rfl, hfind, hleaf, hctx,
    hpc, hks, hkey, by
      simp [setupTLSFromWindowsCertStore, hsn, hws, hcn, hfind, hleaf, hctx,
        hpc, hks, hkey, fullTrace]⟩

/-- C3: for every chain context handed to the conversion loop, the loop
iterates over every chain and every element, skips exactly chain 0,
element 0, copies each non-skipped element's raw bytes, appends them to
the Chain Byte Pool in encounter order, decodes them and adds the decoded
certificate to the Certificate Pool (a set, so `addCert` keeps one copy
per distinct raw bytes); it fails as a whole if any decode fails. -/
theorem chain_loop_matches_spec (parse : DERBytes → Option Cert)
    (chains : CertChainContext) :
    processChains parse chains true [] [] =
      match parseAll parse (specNonLeafBytes chains) with
      | none => Except.error ()
      | some certs =>
          Except.ok (specNonLeafBytes chains, certs.foldl addCert []) :=
  processChains_eq_spec parse chains

/-- C6: on non-supported platforms the pipeline is a no-op returning an
empty option list and no error, for every configuration. -/
theorem noop_returns_no_options_no_error (cfg : Config) :
    setupTLSFromWindowsCertStoreNoop cfg = ([], none) := rfl

/-- C7: on every exit path, the trace consists of the acquisitions of the
(pairwise distinct) handles acquired before that exit, in order, followed
by their releases in reverse acquisition order — so every acquired handle
is released exactly once. -/
theorem handles_released_once_reverse_order (env : Env) (cfg : Config) :
    ∃ hs : List Handle, hs.Nodup ∧
      (setupTLSFromWindowsCertStore env cfg).trace =
        hs.map Event.acquire ++ hs.reverse.map Event.release := by
  unfold setupTLSFromWindowsCertStore
  repeat' split
  all_goals first
    | exact ⟨[], by decide, rfl⟩
    | exact ⟨[Handle.winStore], by decide, rfl⟩
    | exact ⟨[Handle.winStore, Handle.certContext], by decide, rfl⟩
    | exact ⟨[Handle.winStore, Handle.certContext, Handle.certChain],
        by decide, rfl⟩
    | exact ⟨[Handle.winStore, Handle.certContext, Handle.certChain,
        Handle.keyStore], by decide, rfl⟩

/-- C5: every run either returns a fully assembled configuration and no
error, or an error and zero options; in particular, when the certificate
lookup finds nothing (nil reference or search error), the run returns the
certificate-not-found error and zero options. -/
theorem no_partial_success (env : Env) (cfg : Config) :
    ((∃ tc, (setupTLSFromWindowsCertStore env cfg).opts =
        [ServerOption.creds tc] ∧
        (setupTLSFromWindowsCertStore env cfg).err = none) ∨
     (∃ e, (setupTLSFromWindowsCertStore env cfg).opts = [] ∧
        (setupTLSFromWindowsCertStore env cfg).err = some e)) ∧
    (∀ sn ws cn, env.utf16PtrFromString myStoreName = some sn →
      env.certOpenStore sn = some ws →
      env.utf16PtrFromString cfg.tcpTLSCName = some cn →
      (env.certFindCertificateInStore ws cn = Except.ok none ∨
       env.certFindCertificateInStore ws cn = Except.error ()) →
      (setupTLSFromWindowsCertStore env cfg).opts = [] ∧
      (setupTLSFromWindowsCertStore env cfg).err =
        some PipelineError.certificateNotFoundError) := by
  constructor
  · rcases run_shape env cfg with ⟨tc, tr, h⟩ | ⟨e, tr, h⟩
    · exact Or.inl ⟨tc, by rw [h], by rw [h]⟩
    · exact Or.inr ⟨e, by rw [h], by rw [h]⟩
  · intro sn ws cn hsn hws hcn hfind
    rcases hfind with hfind | hfind <;>
      simp [setupTLSFromWindowsCertStore, hsn, hws, hcn, hfind]

/-- C5 witness: in an environment whose lookup returns a nil certificate
reference, the pipeline returns zero options and the not-found error. -/
theorem no_partial_success_witness :
    (setupTLSFromWindowsCertStore nfEnv cexCfg).opts = [] ∧
    (setupTLSFromWindowsCertStore nfEnv cexCfg).err =
      some PipelineError.certificateNotFoundError :=
  (no_partial_success nfEnv cexCfg).2 [0] 1 [0] rfl rfl rfl (Or.inl rfl)

/-- C10: when the certificate lookup returns a nil certificate reference
with no error, the pipeline takes the not-found branch (releasing only the
store handle), and its result does not depend on the leaf decoder at all —
leaf parsing is never reached. -/
theorem nil_cert_reference_not_found (env : Env) (cfg : Config)
    (sn cn : List Nat) (ws : Nat)
    (hsn : env.utf16PtrFromString myStoreName = some sn)
    (hws : env.certOpenStore sn = some ws)
    (hcn : env.utf16PtrFromString cfg.tcpTLSCName = some cn)
    (hfind : env.certFindCertificateInStore ws cn = Except.ok none) :
    setupTLSFromWindowsCertStore env cfg =
      ⟨[], some PipelineError.certificateNotFoundError,
       [Event.acquire Handle.winStore, Event.release Handle.winStore]⟩ ∧
    ∀ p, setupTLSFromWindowsCertStore { env with parseCertificate := p } cfg =
        setupTLSFromWindowsCertStore env cfg := by
  constructor
  · simp [setupTLSFromWindowsCertStore, hsn, hws, hcn, hfind]
  · intro p
    simp [setupTLSFromWindowsCertStore, hsn, hws, hcn, hfind]

/-- C10 witness: concrete nil-reference environment. -/
theorem nil_cert_reference_not_found_witness :
    setupTLSFromWindowsCertStore nfEnv cexCfg =
      ⟨[], some PipelineError.certificateNotFoundError,
       [Event.acquire Handle.winStore, Event.release Handle.winStore]⟩ :=
  (nil_cert_reference_not_found nfEnv cexCfg [0] [0] 1 rfl rfl rfl rfl).1

/-- C4: if the run reaches chain conversion and any non-skipped chain
element fails to decode, the whole pipeline fails with the chain-element
parse error and returns no options (no skip-and-continue, no partial
pool). -/
theorem chain_element_parse_failure_aborts (env : Env) (cfg : Config)
    (sn cn : List Nat) (ws : Nat) (cc : CertContextData) (leaf : Cert)
    (ctx : CertChainContext)
    (hsn : env.utf16PtrFromString myStoreName = some sn)
    (hws : env.certOpenStore sn = some ws)
    (hcn : env.utf16PtrFromString cfg.tcpTLSCName = some cn)
    (hfind : env.certFindCertificateInStore ws cn = Except.ok (some cc))
    (hleaf : env.parseCertificate cc.encodedCert = some leaf)
    (hctx : env.certGetCertificateChain cc = some ctx)
    (hfail : ∃ b ∈ specNonLeafBytes ctx, env.parseCertificate b = none) :
    setupTLSFromWindowsCertStore env cfg =
      ⟨[], some PipelineError.chainElementParseError,
       [Event.acquire Handle.winStore, Event.acquire Handle.certContext,
        Event.acquire Handle.certChain, Event.release Handle.certChain,
        Event.release Handle.certContext, Event.release Handle.winStore]⟩ := by
  have hpc : processChains env.parseCertificate ctx true [] [] =
      Except.error () := by
    rcases hfail with ⟨b, hb, hbn⟩
    rw [processChains_eq_spec]
    cases hpa : parseAll env.parseCertificate (specNonLeafBytes ctx) with
    | none => rfl
    | some cs =>
      rcases parseAll_forall env.parseCertificate _ cs hpa b hb with ⟨c, hc⟩
      rw [hbn] at hc
      exact absurd hc (by simp)
  simp [setupTLSFromWindowsCertStore, hsn, hws, hcn, hfind, hleaf, hctx, hpc]

/-- C4 witness: in `failEnv` the intermediate's bytes fail to decode and
the run aborts with the chain-element parse error. -/
theorem chain_element_parse_failure_aborts_witness :
    setupTLSFromWindowsCertStore failEnv cexCfg =
      ⟨[], some PipelineError.chainElementParseError,
       [Event.acquire Handle.winStore, Event.acquire Handle.certContext,
        Event.acquire Handle.certChain, Event.release Handle.certChain,
        Event.release Handle.certContext, Event.release Handle.winStore]⟩ :=
  chain_element_parse_failure_aborts failEnv cexCfg [0] [0] 1 ⟨leafDER⟩
    ⟨leafDER, caName⟩ wChains rfl rfl rfl rfl (by decide) rfl
    ⟨interDER, by decide, by decide⟩

/-- C2: every successful run returns exactly one credential option whose
configuration enables mandatory-and-verified client authentication iff
the Chain Byte Pool is non-empty; with an empty pool, client
authentication stays at the platform default (not enforced). -/
theorem clientAuth_iff_chain_pool_nonempty (env : Env) (cfg : Config)
    (h : (setupTLSFromWindowsCertStore env cfg).err = none) :
    ∃ key leaf chainBytes pool auth,
      (setupTLSFromWindowsCertStore env cfg).opts =
        [ServerOption.creds ⟨[⟨key, leaf, leaf.raw :: chainBytes⟩], pool,
          auth⟩] ∧
      (auth = ClientAuthType.requireAndVerifyClientCert ↔ chainBytes ≠ []) ∧
      (chainBytes = [] → auth = ClientAuthType.noClientCert) := by
  obtain ⟨sn, ws, cn, cc, leaf, ctx, bytes, pool, st, k,
    hsn, hws, hcn, hfind, hleaf, hctx, hpc, hks, hkey, heq⟩ :=
    run_success env cfg h
  refine ⟨k, leaf, bytes, pool, _, by rw [heq], ?_, ?_⟩
  · rcases eq_or_ne bytes [] with hb | hb
    · subst hb; simp
    · have hlen : bytes.length > 0 := List.length_pos.mpr hb
      simp [hlen, hb]
  · intro hb
    subst hb
    simp

/-- C2 witness: in `wEnv` the chain pool is `[interDER]`, so client
authentication is enforced. -/
theorem clientAuth_iff_chain_pool_nonempty_witness :
    ∃ key leaf chainBytes pool auth,
      (setupTLSFromWindowsCertStore wEnv cexCfg).opts =
        [ServerOption.creds ⟨[⟨key, leaf, leaf.raw :: chainBytes⟩], pool,
          auth⟩] ∧
      (auth = ClientAuthType.requireAndVerifyClientCert ↔ chainBytes ≠ []) ∧
      (chainBytes = [] → auth = ClientAuthType.noClientCert) :=
  clientAuth_iff_chain_pool_nonempty wEnv cexCfg rfl

/-- C8: every successful run assembles a TLS identity whose certificate
byte list is the leaf's raw bytes followed by the Chain Byte Pool entries
in accumulated (chain-preserving) order. -/
theorem identity_bytes_leaf_first (env : Env) (cfg : Config)
    (sn cn : List Nat) (ws : Nat) (cc : CertContextData) (leaf : Cert)
    (ctx : CertChainContext)
    (hsn : env.utf16PtrFromString myStoreName = some sn)
    (hws : env.certOpenStore sn = some ws)
    (hcn : env.utf16PtrFromString cfg.tcpTLSCName = some cn)
    (hfind : env.certFindCertificateInStore ws cn = Except.ok (some cc))
    (hleaf : env.parseCertificate cc.encodedCert = some leaf)
    (hctx : env.certGetCertificateChain cc = some ctx)
    (h : (setupTLSFromWindowsCertStore env cfg).err = none) :
    ∀ tc, (setupTLSFromWindowsCertStore env cfg).opts =
        [ServerOption.creds tc] →
      ∃ key pool auth,
        tc = ⟨[⟨key, leaf, leaf.raw :: specNonLeafBytes ctx⟩], pool, auth⟩ := by
  obtain ⟨sn1, ws1, cn1, cc1, leaf1, ctx1, bytes, pool, st, k,
    h1, h2, h3, h4, h5, h6, h7, h8, h9, heq⟩ := run_success env cfg h
  rw [hsn] at h1; obtain rfl := Option.some.inj h1
  rw [hws] at h2; obtain rfl := Option.some.inj h2
  rw [hcn] at h3; obtain rfl := Option.some.inj h3
  rw [hfind] at h4; obtain rfl := Option.some.inj (Except.ok.inj h4)
  rw [hleaf] at h5; obtain rfl := Option.some.inj h5
  rw [hctx] at h6; obtain rfl := Option.some.inj h6
  rw [processChains_eq_spec] at h7
  cases hpa : parseAll env.parseCertificate (specNonLeafBytes ctx) with
  | none => rw [hpa] at h7; exact absurd h7 (by simp)
  | some cs =>
    rw [hpa] at h7
    have h7' := Except.ok.inj h7
    have hbytes : specNonLeafBytes ctx = bytes := congrArg Prod.fst h7'
    subst hbytes
    intro tc htc
    rw [heq] at htc
    simp only [List.cons.injEq, and_true] at htc
    obtain rfl := (ServerOption.creds.inj htc).symm
    exact ⟨k, pool, _, rfl⟩

/-- C8 witness: in `wEnv` the identity byte list is the leaf's bytes
followed by the single intermediate's bytes. -/
theorem identity_bytes_leaf_first_witness :
    ∃ key pool auth, wTLSConfig =
      ⟨[⟨key, ⟨leafDER, caName⟩,
         (Cert.mk leafDER caName).raw :: specNonLeafBytes wChains⟩],
       pool, auth⟩ :=
  identity_bytes_leaf_first wEnv cexCfg [0] [0] 1 ⟨leafDER⟩
    ⟨leafDER, caName⟩ wChains rfl rfl rfl rfl rfl rfl rfl wTLSConfig rfl

/-- C9: on every successful run, if the output configuration enforces
client authentication then the client-CA pool is non-empty: enforcement
is never enabled with an empty trust-anchor set. -/
theorem clientAuth_implies_nonempty_clientCAs (env : Env) (cfg : Config)
    (h : (setupTLSFromWindowsCertStore env cfg).err = none) :
    ∀ tc, (setupTLSFromWindowsCertStore env cfg).opts =
        [ServerOption.creds tc] →
      tc.clientAuth = ClientAuthType.requireAndVerifyClientCert →
      tc.clientCAs ≠ [] := by
  obtain ⟨sn, ws, cn, cc, leaf, ctx, bytes, pool, st, k,
    h1, h2, h3, h4, h5, h6, h7, h8, h9, heq⟩ := run_success env cfg h
  intro tc htc hauth
  rw [heq] at htc
  simp only [List.cons.injEq, and_true] at htc
  obtain rfl := (ServerOption.creds.inj htc).symm
  rcases eq_or_ne bytes [] with hb | hb
  · subst hb
    simp [TLSConfig.clientAuth] at hauth
  · show pool ≠ []
    rw [processChains_eq_spec] at h7
    cases hpa : parseAll env.parseCertificate (specNonLeafBytes ctx) with
    | none => rw [hpa] at h7; exact absurd h7 (by simp)
    | some cs =>
      rw [hpa] at h7
      have h7' := Except.ok.inj h7
      have hbytes : specNonLeafBytes ctx = bytes := congrArg Prod.fst h7'
      have hpool : cs.foldl addCert [] = pool := congrArg Prod.snd h7'
      have hcs : cs ≠ [] := by
        intro hnil
        have hlen := parseAll_length env.parseCertificate _ cs hpa
        rw [hnil, hbytes] at hlen
        exact hb (List.eq_nil_of_length_eq_zero hlen.symm)
      rw [← hpool]
      exact foldl_addCert_ne_nil cs [] hcs

/-- C9 witness: the `wEnv` configuration enforces client authentication
and indeed has a non-empty client-CA pool. -/
theorem clientAuth_implies_nonempty_clientCAs_witness :
    wTLSConfig.clientCAs ≠ [] :=
  clientAuth_implies_nonempty_clientCAs wEnv cexCfg rfl wTLSConfig rfl rfl

/-- C1 counterexample: a store state whose chain context repeats the
leaf's bytes at chain 0, element 1 makes the pipeline succeed while the
leaf's raw bytes land in the Certificate Pool and occur in the identity's
byte list beyond the first position — the claim as stated fails. -/
theorem leaf_bytes_duplicated_cex :
    (setupTLSFromWindowsCertStore cexEnv cexCfg).err = none ∧
    1 ≤ cexChains.length ∧
    (setupTLSFromWindowsCertStore cexEnv cexCfg).opts =
      [ServerOption.creds cexTLSConfig] ∧
    leafDER ∈ cexTLSConfig.clientCAs.map Cert.raw ∧
    ∃ cert ∈ cexTLSConfig.certificates,
      cert.certificate.head? = some leafDER ∧
      leafDER ∈ cert.certificate.drop 1 := by
  refine ⟨rfl, by decide, rfl, by decide, ?_⟩
  refine ⟨⟨7, ⟨leafDER, caName⟩, [leafDER, leafDER]⟩, ?_, rfl, by decide⟩
  exact List.mem_singleton.mpr rfl

/-- C1 (amended): if the decoder returns certificates carrying exactly
the bytes it decoded and the leaf's raw bytes occur in the chain context
only at the skipped position (chain 0, element 0), then for every store
state whose chain resolution returns one or more chains, the leaf's raw
bytes never appear in the Certificate Pool and appear in the identity's
byte list only at the first position. -/
theorem leaf_bytes_not_duplicated_amended (env : Env) (cfg : Config)
    (sn cn : List Nat) (ws : Nat) (cc : CertContextData) (leaf : Cert)
    (ctx : CertChainContext)
    (hraw : ∀ b c, env.parseCertificate b = some c → c.raw = b)
    (hsn : env.utf16PtrFromString myStoreName = some sn)
    (hws : env.certOpenStore sn = some ws)
    (hcn : env.utf16PtrFromString cfg.tcpTLSCName = some cn)
    (hfind : env.certFindCertificateInStore ws cn = Except.ok (some cc))
    (hleaf : env.parseCertificate cc.encodedCert = some leaf)
    (hctx : env.certGetCertificateChain cc = some ctx)
    (_hchains : 1 ≤ ctx.length)
    (hnodup : leaf.raw ∉ specNonLeafBytes ctx)
    (h : (setupTLSFromWindowsCertStore env cfg).err = none) :
    ∀ tc, (setupTLSFromWindowsCertStore env cfg).opts =
        [ServerOption.creds tc] →
      (∀ c ∈ tc.clientCAs, c.raw ≠ leaf.raw) ∧
      (∀ cert ∈ tc.certificates,
        cert.certificate.head? = some leaf.raw ∧
        leaf.raw ∉ cert.certificate.drop 1) := by
  obtain ⟨sn1, ws1, cn1, cc1, leaf1, ctx1, bytes, pool, st, k,
    h1, h2, h3, h4, h5, h6, h7, h8, h9, heq⟩ := run_success env cfg h
  rw [hsn] at h1; obtain rfl := Option.some.inj h1
  rw [hws] at h2; obtain rfl := Option.some.inj h2
  rw [hcn] at h3; obtain rfl := Option.some.inj h3
  rw [hfind] at h4; obtain rfl := Option.some.inj (Except.ok.inj h4)
  rw [hleaf] at h5; obtain rfl := Option.some.inj h5
  rw [hctx] at h6; obtain rfl := Option.some.inj h6
  rw [processChains_eq_spec] at h7
  cases hpa : parseAll env.parseCertificate (specNonLeafBytes ctx) with
  | none => rw [hpa] at h7; exact absurd h7 (by simp)
  | some cs =>
    rw [hpa] at h7
    have h7' := Except.ok.inj h7
    have hbytes : specNonLeafBytes ctx = bytes := congrArg Prod.fst h7'
    have hpool : cs.foldl addCert [] = pool := congrArg Prod.snd h7'
    subst hbytes
    intro tc htc
    rw [heq] at htc
    simp only [List.cons.injEq, and_true] at htc
    obtain rfl := (ServerOption.creds.inj htc).symm
    constructor
    · intro c hc hceq
      rw [← hpool] at hc
      rcases mem_foldl_addCert cs [] c hc with hc1 | hc1
      · simp at hc1
      · rcases parseAll_mem env.parseCertificate _ cs hpa c hc1 with ⟨b, hb, hbc⟩
        have := hraw b c hbc
        rw [← hceq, this] at hnodup
        exact hnodup hb
    · intro cert hcert
      rcases List.mem_singleton.mp hcert with rfl
      exact ⟨rfl, hnodup⟩

/-- C1 (amended) witness: in `wEnv` the chain context holds the leaf's
bytes only at the skipped position, and neither violation occurs. -/
theorem leaf_bytes_not_duplicated_amended_witness :
    (∀ c ∈ wTLSConfig.clientCAs, c.raw ≠ (Cert.mk leafDER caName).raw) ∧
    (∀ cert ∈ wTLSConfig.certificates,
      cert.certificate.head? = some (Cert.mk leafDER caName).raw ∧
      (Cert.mk leafDER caName).raw ∉ cert.certificate.drop 1) :=
  leaf_bytes_not_duplicated_amended wEnv cexCfg [0] [0] 1 ⟨leafDER⟩
    ⟨leafDER, caName⟩ wChains
    (by intro b c hbc; cases Option.some.inj hbc; rfl)
    rfl rfl rfl rfl rfl rfl (by decide) (by decide) rfl wTLSConfig rfl

end ContainerdTLS
